import Mathlib

/-!
# DynamicForm.js: state model of the form component

A shallow embedding of the component in `src/DynamicForm.js`.  The five `useState`
cells become the fields of `State`; every event handler becomes a function from
the state rendered when the event fired to the state after the queued setters
have been applied.  Alerts and `preventDefault` have no effect on the state and
are left out.

Modelling conventions
* A plain JS object with string values is its list of own entries (`Obj`); its
  prototype is `Object.prototype`.  A property read `o[key]` finds the own entry
  first and the members of `Object.prototype` after it (`Obj.get`).
* Own keys are listed in insertion order.  JS lists integer-like keys first; no
  field name of the component is integer-like and nothing below depends on the
  order of keys.
* A state cell that may hold `undefined` (`formValues` after `handleEdit` with an
  index outside the table) is an `Option Obj`, `none` standing for `undefined`.
* A handler that throws a `TypeError` returns `Except.error`, with the state that
  the setters called before the throw leave behind.
* `Math.round(a / b * 100)` is computed on exact rationals, rounding halves up;
  a zero divisor gives `Infinity`.  The code rounds IEEE doubles: the two agree
  for 2, 3 and 4 required fields, the schemas of the component, and differ for
  some larger counts (23 of 40 is 58 here and 57 in doubles).
-/

namespace DynamicForm

/-! ## Data model -/

/-- Field descriptor of `mockApiResponses[..].fields`; `options` is present only
for dropdowns. -/
structure Field where
  name : String
  type : String
  label : String
  required : Bool
  options : Option (List String)
deriving DecidableEq

/-- Own entries of a JS object whose values are strings, in insertion order. -/
abbrev Obj := List (String × String)

/-- Exceptions a handler may raise. -/
inductive JsError where
  | typeError
deriving DecidableEq

/-- Result of a property read on an object of string values: `undefined`, the
string of an own entry, or a member inherited from `Object.prototype` (a
function or an object, in either case truthy and without a `trim` method). -/
inductive JsValue where
  | undefined
  | string (value : String)
  | inherited
deriving DecidableEq

deriving instance DecidableEq for Except

/-- Value of the `progress` cell: a whole number, or `Infinity` after a division
by zero. -/
inductive Progress where
  | percent (n : Nat)
  | infinity
deriving DecidableEq

/-- The five `useState` cells of the component. -/
structure State where
  formType : String
  formData : List Field
  formValues : Option Obj
  submittedData : List (Option Obj)
  progress : Progress
deriving DecidableEq

/-- Exception leaving a handler, with the state left by the setters that were
called before the throw. -/
structure Thrown where
  error : JsError
  state : State
deriving DecidableEq

/-- State of the first render: `""`, `[]`, `{}`, `[]`, `0`. -/
def initialState : State :=
  { formType := "", formData := [], formValues := some [], submittedData := [],
    progress := Progress.percent 0 }

/-! ## JS primitives used by the handlers -/

/-- Own entry of an object under `key`, if there is one. -/
def Obj.entry (o : Obj) (key : String) : Option String :=
  match o with
  | [] => none
  | (k, v) :: rest => if k = key then some v else Obj.entry rest key

/-- Property names of `Object.prototype`, which every object literal inherits. -/
def objectPrototypeNames : List String :=
  ["constructor", "__defineGetter__", "__defineSetter__", "hasOwnProperty",
   "__lookupGetter__", "__lookupSetter__", "isPrototypeOf", "propertyIsEnumerable",
   "toString", "valueOf", "__proto__", "toLocaleString"]

/-- Property read `o[key]` on an object: the own entry, else the member of
`Object.prototype` of that name, else `undefined`. -/
def Obj.get (o : Obj) (key : String) : JsValue :=
  match o.entry key with
  | some v => JsValue.string v
  | none => if key ∈ objectPrototypeNames then JsValue.inherited else JsValue.undefined

/-- Object literal `{ ...o, [key]: value }`: an existing key keeps its place and
takes the new value, a new key goes last (a computed key always makes an own
entry, also for `__proto__`). -/
def Obj.set (o : Obj) (key value : String) : Obj :=
  match o with
  | [] => [(key, value)]
  | (k, v) :: rest => if k = key then (k, value) :: rest else (k, v) :: Obj.set rest key value

/-- Keys of an object, as `Object.keys` lists them. -/
def Obj.keys (o : Obj) : List String := o.map Prod.fst

/-- Spread `{ ...x }` of a cell value: `undefined` spreads to no entries. -/
def spread (x : Option Obj) : Obj := x.getD []

/-- Code points stripped by `String.prototype.trim` (WhiteSpace and
LineTerminator of ECMAScript). -/
def isTrimSpace (c : Char) : Bool :=
  let n := c.toNat
  n = 0x09 || n = 0x0A || n = 0x0B || n = 0x0C || n = 0x0D || n = 0x20 || n = 0xA0 ||
  n = 0x1680 || (0x2000 ≤ n && n ≤ 0x200A) || n = 0x2028 || n = 0x2029 || n = 0x202F ||
  n = 0x205F || n = 0x3000 || n = 0xFEFF

/-- String method `trim`. -/
def trim (s : String) : String :=
  String.mk ((s.data.dropWhile isTrimSpace).reverse.dropWhile isTrimSpace).reverse

/-- Truthiness of a string: every string but `""` is truthy. -/
def truthy (s : String) : Bool := s != ""

/-- Array method `filter((_, i) => i !== index)` as both `handleEdit` and
`handleDelete` use it; `start` is the position of the head. -/
def filterNotIndex {α : Type} (index : Int) (start : Nat) : List α → List α
  | [] => []
  | x :: xs =>
    if (start : Int) ≠ index then x :: filterNotIndex index (start + 1) xs
    else filterNotIndex index (start + 1) xs

/-- Array read `xs[index]` for an integer index; `undefined` outside the array. -/
def readIndex (xs : List (Option Obj)) (index : Int) : Option Obj :=
  if 0 ≤ index then (xs.get? index.toNat).join else none

/-- Array method `every` with a callback that may throw: stops at the first
falsy answer. -/
def every (cb : Field → Except JsError Bool) : List Field → Except JsError Bool
  | [] => Except.ok true
  | f :: fs =>
    match cb f with
    | Except.error e => Except.error e
    | Except.ok false => Except.ok false
    | Except.ok true => every cb fs

/-- Value of `Math.round((filled / required) * 100)`, on the exact quotient
(see the conventions above for the distance to the double computation). -/
def roundPercent (filled required : Nat) : Progress :=
  if required = 0 then Progress.infinity
  else Progress.percent ((200 * filled + required) / (2 * required))

/-! ## Schema registry -/

/-- Entry `userInfo.fields`. -/
def userInfoFields : List Field :=
  [ { name := "firstName", type := "text", label := "First Name", required := true, options := none },
    { name := "lastName", type := "text", label := "Last Name", required := true, options := none },
    { name := "age", type := "number", label := "Age", required := false, options := none } ]

/-- Entry `addressInfo.fields`. -/
def addressInfoFields : List Field :=
  [ { name := "street", type := "text", label := "Street", required := true, options := none },
    { name := "city", type := "text", label := "City", required := true, options := none },
    { name := "state", type := "dropdown", label := "State", required := true,
      options := some ["California", "Texas", "New York"] },
    { name := "zipCode", type := "text", label := "Zip Code", required := false, options := none } ]

/-- Entry `paymentInfo.fields`. -/
def paymentInfoFields : List Field :=
  [ { name := "cardNumber", type := "text", label := "Card Number", required := true, options := none },
    { name := "expiryDate", type := "date", label := "Expiry Date", required := true, options := none },
    { name := "cvv", type := "password", label := "CVV", required := true, options := none },
    { name := "cardholderName", type := "text", label := "Cardholder Name", required := true,
      options := none } ]

/-- Read `mockApiResponses[selectedForm]?.fields`; `none` is `undefined` (a key
that is absent, or inherited and without a `fields` property). -/
def mockApiResponses (selectedForm : String) : Option (List Field) :=
  if selectedForm = "userInfo" then some userInfoFields
  else if selectedForm = "addressInfo" then some addressInfoFields
  else if selectedForm = "paymentInfo" then some paymentInfoFields
  else none

/-! ## Handlers -/

/-- Handler `handleFormTypeChange`: sets `formType`, `formData` and `formValues`. -/
def handleFormTypeChange (s : State) (selectedForm : String) : State :=
  { s with formType := selectedForm,
           formData := (mockApiResponses selectedForm).getD [],
           formValues := some [] }

/-- Callback of `validateForm`:
`!field.required || (formValues[field.name] && formValues[field.name].trim() !== "")`. -/
def validateField (formValues : Option Obj) (field : Field) : Except JsError Bool :=
  if !field.required then Except.ok true
  else
    match formValues with
    | none => Except.error JsError.typeError
    | some o =>
      match o.get field.name with
      | JsValue.undefined => Except.ok false
      | JsValue.string v => Except.ok (truthy v && trim v != "")
      | JsValue.inherited => Except.error JsError.typeError

/-- Function `validateForm` on the `formData` and `formValues` cells. -/
def validateForm (formData : List Field) (formValues : Option Obj) : Except JsError Bool :=
  every (validateField formValues) formData

/-- Handler `handleInputChange`: queues the write, then computes `progress` from
the `formValues` of the current render; `Object.entries(undefined)` throws after
`setFormValues` was called. -/
def handleInputChange (s : State) (name value : String) : Except Thrown State :=
  let newValues := (spread s.formValues).set name value
  let requiredFields := (s.formData.filter fun field => field.required).length
  match s.formValues with
  | none => Except.error { error := JsError.typeError,
                           state := { s with formValues := some newValues } }
  | some o =>
    let filledFields := (o.filter fun entry =>
      truthy entry.2 && s.formData.any fun field => field.name == entry.1 && field.required).length
    Except.ok { s with formValues := some newValues,
                       progress := roundPercent (filledFields + 1) requiredFields }

/-- Handler `handleSubmit`; when `validateForm` throws no setter has been called. -/
def handleSubmit (s : State) : Except Thrown State :=
  match validateForm s.formData s.formValues with
  | Except.error e => Except.error { error := e, state := s }
  | Except.ok true =>
    Except.ok { s with submittedData := s.submittedData ++ [s.formValues],
                       formValues := some [],
                       progress := Progress.percent 0 }
  | Except.ok false => Except.ok s

/-- Handler `handleEdit`. -/
def handleEdit (s : State) (index : Int) : State :=
  { s with formValues := readIndex s.submittedData index,
           submittedData := filterNotIndex index 0 s.submittedData }

/-- Handler `handleDelete`. -/
def handleDelete (s : State) (index : Int) : State :=
  { s with submittedData := filterNotIndex index 0 s.submittedData }

/-! ## Events and runs -/

/-- User events, one per handler. -/
inductive Event where
  | formTypeChange (selectedForm : String)
  | inputChange (name value : String)
  | submit
  | edit (index : Int)
  | delete (index : Int)
deriving DecidableEq

/-- State in which a handler leaves the component, whether it returns or throws. -/
def stateAfter : Except Thrown State → State
  | Except.ok next => next
  | Except.error thrown => thrown.state

/-- Handler call made for an event. -/
def step (s : State) : Event → Except Thrown State
  | Event.formTypeChange selectedForm => Except.ok (handleFormTypeChange s selectedForm)
  | Event.inputChange name value => handleInputChange s name value
  | Event.submit => handleSubmit s
  | Event.edit index => Except.ok (handleEdit s index)
  | Event.delete index => Except.ok (handleDelete s index)

/-- Events considered in state `s`: an input change names a field of `formData`
(one input is rendered per field), an edit names a row of the table and is
considered only when `withEdit` is set; the other events are unrestricted. -/
def offered (withEdit : Bool) (s : State) : Event → Bool
  | Event.formTypeChange _ => true
  | Event.inputChange name _ => s.formData.any fun field => field.name == name
  | Event.submit => true
  | Event.edit index => withEdit && decide (0 ≤ index) && decide (index < s.submittedData.length)
  | Event.delete _ => true

/-- State after a sequence of offered events; `none` when an event is not
offered or its handler throws. -/
def run (withEdit : Bool) (s : State) : List Event → Option State
  | [] => some s
  | e :: es =>
    if offered withEdit s e then
      match step s e with
      | Except.ok next => run withEdit next es
      | Except.error _ => none
    else none

/-! ## Predicates of the specification -/

/-- Answer of the `validateForm` callback on a required field of an object: the
field has an entry and its trimmed value is not empty. -/
def hasValue (o : Obj) (name : String) : Bool :=
  match o.entry name with
  | none => false
  | some v => trim v != ""

/-- The read `o[name]` finds no own entry but a member of `Object.prototype`. -/
def readsInherited (o : Obj) (name : String) : Bool :=
  o.entry name = none && decide (name ∈ objectPrototypeNames)

/-- Every key of `formValues` names a field of the active field list. -/
def keysInActive (s : State) : Bool :=
  (spread s.formValues).keys.all fun key => s.formData.any fun field => field.name == key

/-- Every key of the value `x` names a field of the list `fields`. -/
def keysAmong (fields : List Field) (x : Option Obj) : Bool :=
  (spread x).keys.all fun key => fields.any fun field => field.name == key

/-- Every key of every stored record names a field of the active field list. -/
def storeKeysInActive (s : State) : Bool :=
  s.submittedData.all fun record => keysAmong s.formData record

/-- Along the events, started in `s`: every edit opens a row whose record has
only keys naming fields of the field list active at that moment. -/
def editsLoadActive (s : State) : List Event → Bool
  | [] => true
  | e :: es =>
    (match e with
     | Event.edit index => keysAmong s.formData (readIndex s.submittedData index)
     | _ => true) &&
    (match step s e with
     | Except.ok next => editsLoadActive next es
     | Except.error _ => true)

/-- Along the events, started in `s`: every form type change happens while the
submission store is empty. -/
def typeChangesOnEmptyStore (s : State) : List Event → Bool
  | [] => true
  | e :: es =>
    (match e with
     | Event.formTypeChange _ => s.submittedData.isEmpty
     | _ => true) &&
    (match step s e with
     | Except.ok next => typeChangesOnEmptyStore next es
     | Except.error _ => true)

/-- The `progress` cell holds a number between 0 and 100. -/
def Progress.inRange : Progress → Bool
  | Progress.percent n => decide (n ≤ 100)
  | Progress.infinity => false

/-- Progress as the specification words it: `round(100 * filled / total)` with
`total` the number of required fields and `filled` the number of required fields
with a non-blank value in the given object (the values after the write). -/
def progressAsSpecified (formData : List Field) (valuesAfterWrite : Obj) : Progress :=
  roundPercent
    ((formData.filter fun field => field.required && hasValue valuesAfterWrite field.name).length)
    ((formData.filter fun field => field.required).length)

/-! ## Concrete runs used below -/

/-- Both required fields of `userInfo` are typed, then the first is typed again. -/
def retypeRun : List Event :=
  [Event.formTypeChange "userInfo", Event.inputChange "firstName" "a",
   Event.inputChange "lastName" "b", Event.inputChange "firstName" "ab"]

/-- A `userInfo` record is submitted, the form type is switched to `addressInfo`
and the record is opened for editing. -/
def editAcrossTypesRun : List Event :=
  [Event.formTypeChange "userInfo", Event.inputChange "firstName" "Ada",
   Event.inputChange "lastName" "Lovelace", Event.submit,
   Event.formTypeChange "addressInfo", Event.edit 0]

/-- A `userInfo` record is submitted and opened for editing under `userInfo`. -/
def editSameTypeRun : List Event :=
  [Event.formTypeChange "userInfo", Event.inputChange "firstName" "Ada",
   Event.inputChange "lastName" "Lovelace", Event.submit, Event.edit 0]

/-- State whose only field is required and named like a member of
`Object.prototype`, with nothing typed. -/
def inheritedNameState : State :=
  { formType := "custom",
    formData := [{ name := "constructor", type := "text", label := "Constructor",
                   required := true, options := none }],
    formValues := some [], submittedData := [], progress := Progress.percent 0 }

/-- State in which `userInfo` is active with half of its required fields typed. -/
def halfFilledState : State :=
  { formType := "userInfo", formData := userInfoFields,
    formValues := some [("firstName", "a")], submittedData := [],
    progress := Progress.percent 50 }

/-- State with two stored `userInfo` records and an empty form. -/
def twoRecordsState : State :=
  { formType := "userInfo", formData := userInfoFields, formValues := some [],
    submittedData := [some [("firstName", "Ada"), ("lastName", "Lovelace")],
                      some [("firstName", "Alan"), ("lastName", "Turing")]],
    progress := Progress.percent 0 }

/-- State with the scenario values of `addressInfo` typed and nothing stored. -/
def addressFilledState : State :=
  { formType := "addressInfo", formData := addressInfoFields,
    formValues := some [("street", "Main"), ("city", "Springfield"), ("state", "Texas")],
    submittedData := [], progress := Progress.percent 100 }

/-- Same as `addressFilledState` with a blank `city`. -/
def addressBlankCityState : State :=
  { formType := "addressInfo", formData := addressInfoFields,
    formValues := some [("street", "Main"), ("city", " "), ("state", "Texas")],
    submittedData := [], progress := Progress.percent 100 }

/-! ## Validation -/

theorem trim_empty : trim "" = "" := by decide

theorem truthy_and_trim (v : String) : (truthy v && trim v != "") = (trim v != "") := by
  by_cases hv : v = ""
  · subst hv
    simp [truthy, trim_empty]
  · simp [truthy, hv]

theorem hasValue_iff (o : Obj) (name : String) :
    hasValue o name = true ↔ ∃ v, o.entry name = some v ∧ trim v ≠ "" := by
  unfold hasValue
  cases o.entry name <;> simp

/-- Answer of the `validateForm` callback on an object, for a field that is
required and has no own non-blank value. -/
theorem validateField_unfilled (o : Obj) (field : Field) (hreq : field.required = true)
    (hvalue : hasValue o field.name = false) :
    validateField (some o) field
      = if readsInherited o field.name then Except.error JsError.typeError
        else Except.ok false := by
  unfold hasValue at hvalue
  cases hentry : o.entry field.name with
  | none =>
    by_cases hname : field.name ∈ objectPrototypeNames <;>
      simp [validateField, Obj.get, readsInherited, hreq, hentry, hname]
  | some v =>
    rw [hentry] at hvalue
    simp [validateField, Obj.get, readsInherited, hreq, hentry, truthy_and_trim] at hvalue ⊢
    exact hvalue

/-- Answer of the `validateForm` callback on an object, for a field that is
optional or has an own non-blank value. -/
theorem validateField_filled (o : Obj) (field : Field)
    (h : (field.required && !hasValue o field.name) = false) :
    validateField (some o) field = Except.ok true := by
  cases hreq : field.required with
  | false => simp [validateField, hreq]
  | true =>
    rw [hreq] at h
    have hvalue : hasValue o field.name = true := by simpa using h
    obtain ⟨v, hentry, htrim⟩ := (hasValue_iff o field.name).mp hvalue
    simp [validateField, Obj.get, hreq, hentry, truthy_and_trim, htrim]

/-- Result of `validateForm` on an object: decided by the first required field
without an own non-blank value. -/
theorem validateForm_some (formData : List Field) (o : Obj) :
    validateForm formData (some o)
      = match formData.find? (fun field => field.required && !hasValue o field.name) with
        | none => Except.ok true
        | some field =>
          if readsInherited o field.name then Except.error JsError.typeError
          else Except.ok false := by
  unfold validateForm
  induction formData with
  | nil => rfl
  | cons f fs ih =>
    cases hp : (f.required && !hasValue o f.name) with
    | false =>
      rw [every, validateField_filled o f hp, List.find?_cons_of_neg _ (by simp [hp])]
      exact ih
    | true =>
      have hreq : f.required = true := by
        cases hr : f.required <;> simp [hr] at hp ⊢
      have hvalue : hasValue o f.name = false := by
        cases hv : hasValue o f.name <;> simp [hv, hreq] at hp ⊢
      rw [every, validateField_unfilled o f hreq hvalue, List.find?_cons_of_pos _ (by simp [hp])]
      cases hr : readsInherited o f.name <;> simp [hr]

theorem validateForm_filter_required (formData : List Field) (formValues : Option Obj) :
    validateForm formData formValues
      = validateForm (formData.filter fun field => field.required) formValues := by
  unfold validateForm
  induction formData with
  | nil => rfl
  | cons f fs ih =>
    cases hreq : f.required with
    | false =>
      rw [List.filter_cons_of_neg (by simp [hreq]), every]
      have hcb : validateField formValues f = Except.ok true := by simp [validateField, hreq]
      rw [hcb]
      exact ih
    | true =>
      rw [List.filter_cons_of_pos (by simp [hreq]), every, every, ih]

/-- `validateForm` answers `true` on an object exactly when no required field
lacks an own non-blank value. -/
theorem validateForm_true_iff (formData : List Field) (o : Obj) :
    validateForm formData (some o) = Except.ok true ↔
      ∀ field ∈ formData, field.required = true → hasValue o field.name = true := by
  rw [validateForm_some]
  cases hfind : formData.find? (fun field => field.required && !hasValue o field.name) with
  | none =>
    simp only [true_iff]
    intro field hmem hreq
    have h := List.find?_eq_none.mp hfind field hmem
    simpa [hreq] using h
  | some field =>
    have hmem := List.mem_of_find?_eq_some hfind
    have hp := List.find?_some hfind
    simp only [Bool.and_eq_true, Bool.not_eq_true'] at hp
    constructor
    · intro h
      cases hr : readsInherited o field.name <;> simp [hr] at h
    · intro h
      have := h field hmem hp.1
      rw [hp.2] at this
      exact absurd this (by decide)

/-- C1: on every field list and every object of string values, `validateForm`
returns `true` exactly when each required field has an entry whose trimmed value
is not empty, and fields that are not required can be dropped from the list
without changing the outcome.  When some required field has no such value the
first of them in list order decides: `validateForm` returns `false`, unless that
field has no entry and its name is a member of `Object.prototype`, in which case
the read finds the inherited member and calling its `trim` throws a TypeError. -/
theorem validateForm_iff_required_filled (formData : List Field) (formValues : Obj) :
    (validateForm formData (some formValues) = Except.ok true ↔
      ∀ field ∈ formData, field.required = true →
        ∃ v, formValues.entry field.name = some v ∧ trim v ≠ "") ∧
    validateForm formData (some formValues)
      = validateForm (formData.filter fun field => field.required) (some formValues) ∧
    validateForm formData (some formValues)
      = (match formData.find?
            (fun field => field.required && !hasValue formValues field.name) with
         | none => Except.ok true
         | some field =>
           if formValues.entry field.name = none ∧ field.name ∈ objectPrototypeNames
           then Except.error JsError.typeError
           else Except.ok false) := by
  refine ⟨?_, validateForm_filter_required formData (some formValues), ?_⟩
  · rw [validateForm_true_iff]
    simp only [hasValue_iff]
  · rw [validateForm_some]
    cases formData.find? (fun field => field.required && !hasValue formValues field.name) with
    | none => rfl
    | some field =>
      simp only [readsInherited, Bool.and_eq_true, decide_eq_true_eq]

/-! ## Submission -/

/-- A submit that passes validation appends `formValues` and resets the form. -/
theorem handleSubmit_of_valid (s : State)
    (hvalid : validateForm s.formData s.formValues = Except.ok true) :
    handleSubmit s = Except.ok
        { s with submittedData := s.submittedData ++ [s.formValues],
                 formValues := some [],
                 progress := Progress.percent 0 } := by
  simp [handleSubmit, hvalid]

/-- C2: whenever `validateForm` answers `true` on the current cells,
`handleSubmit` returns the state whose store is the old store with the old
`formValues` appended as its last record, whose `formValues` is the empty object
and whose progress is 0; the store grows by exactly one. -/
theorem handleSubmit_valid (s : State)
    (hvalid : validateForm s.formData s.formValues = Except.ok true) :
    handleSubmit s = Except.ok
        { s with submittedData := s.submittedData ++ [s.formValues],
                 formValues := some [],
                 progress := Progress.percent 0 } ∧
      (s.submittedData ++ [s.formValues]).length = s.submittedData.length + 1 ∧
      (s.submittedData ++ [s.formValues]).getLast? = some s.formValues := by
  exact ⟨handleSubmit_of_valid s hvalid, by simp, by simp⟩

theorem handleSubmit_valid_witness :
    validateForm addressFilledState.formData addressFilledState.formValues = Except.ok true ∧
    (handleSubmit addressFilledState).map (fun s => s.submittedData.length) = Except.ok 1 :=
  ⟨by decide, by rw [(handleSubmit_valid addressFilledState (by decide)).1]; rfl⟩

/-- C3: when some required field of the active list has no entry in `formValues`
or an entry that is blank after trimming, `handleSubmit` leaves the component in
the state it was given: store, `formValues` and progress are untouched.  It
returns normally, unless `validateForm` throws on a required field without entry
whose name is a member of `Object.prototype`; no setter has been called by then,
so the state is the same in that case as well. -/
theorem handleSubmit_invalid (s : State) (o : Obj) (hvalues : s.formValues = some o)
    (hblank : ∃ field ∈ s.formData, field.required = true ∧
      (o.entry field.name = none ∨ ∃ v, o.entry field.name = some v ∧ trim v = "")) :
    stateAfter (handleSubmit s) = s ∧
    (handleSubmit s = Except.ok s ∨
      handleSubmit s = Except.error { error := JsError.typeError, state := s }) ∧
    ((∀ field ∈ s.formData, field.required = true → o.entry field.name = none →
        field.name ∉ objectPrototypeNames) →
      handleSubmit s = Except.ok s) := by
  obtain ⟨blank, hmem, hreq, hcase⟩ := hblank
  have hunfilled : (blank.required && !hasValue o blank.name) = true := by
    rcases hcase with hnone | ⟨v, hv, ht⟩
    · simp [hreq, hasValue, hnone]
    · simp [hreq, hasValue, hv, ht]
  have hresult := validateForm_some s.formData o
  cases hfind : s.formData.find? (fun field => field.required && !hasValue o field.name) with
  | none =>
    have hnot := List.find?_eq_none.mp hfind blank hmem
    exact absurd hunfilled hnot
  | some first =>
    rw [hfind] at hresult
    have hfirst := List.mem_of_find?_eq_some hfind
    have hp := List.find?_some hfind
    simp only [Bool.and_eq_true, Bool.not_eq_true'] at hp
    cases hr : readsInherited o first.name with
    | false =>
      have hfalse : validateForm s.formData s.formValues = Except.ok false := by
        rw [hvalues, hresult]; simp [hr]
      have hsubmit : handleSubmit s = Except.ok s := by simp [handleSubmit, hfalse]
      exact ⟨by rw [hsubmit]; rfl, Or.inl hsubmit, fun _ => hsubmit⟩
    | true =>
      have herror : validateForm s.formData s.formValues = Except.error JsError.typeError := by
        rw [hvalues, hresult]; simp [hr]
      have hsubmit : handleSubmit s
          = Except.error { error := JsError.typeError, state := s } := by
        simp [handleSubmit, herror]
      refine ⟨by rw [hsubmit]; rfl, Or.inr hsubmit, ?_⟩
      intro hnames
      simp only [readsInherited, Bool.and_eq_true, decide_eq_true_eq] at hr
      have hentry : o.entry first.name = none := by simpa using hr.1
      exact absurd hr.2 (hnames first hfirst hp.1 hentry)

theorem handleSubmit_invalid_witness :
    handleSubmit addressBlankCityState = Except.ok addressBlankCityState ∧
    stateAfter (handleSubmit inheritedNameState) = inheritedNameState :=
  ⟨(handleSubmit_invalid addressBlankCityState
      [("street", "Main"), ("city", " "), ("state", "Texas")] rfl
      ⟨{ name := "city", type := "text", label := "City", required := true, options := none },
        by decide, rfl, Or.inr ⟨" ", by decide, by decide⟩⟩).2.2 (by decide),
   (handleSubmit_invalid inheritedNameState [] rfl
      ⟨{ name := "constructor", type := "text", label := "Constructor", required := true,
         options := none },
        by decide, rfl, Or.inl (by decide)⟩).1⟩

/-! ## Form type selection -/

/-- C4: `handleFormTypeChange` sets the active field list to the registered list
of a known key (each of which is non-empty) and to the empty list for any other
key, and sets `formValues` to the empty object; but it leaves `progress` as it
was, so that from `halfFilledState` the progress after the change is 50, not 0. -/
theorem handleFormTypeChange_keeps_progress :
    (∀ (s : State) (key : String),
      (handleFormTypeChange s key).formData =
          (if key = "userInfo" then userInfoFields
           else if key = "addressInfo" then addressInfoFields
           else if key = "paymentInfo" then paymentInfoFields
           else []) ∧
      (handleFormTypeChange s key).formValues = some [] ∧
      (handleFormTypeChange s key).progress = s.progress) ∧
    userInfoFields ≠ [] ∧ addressInfoFields ≠ [] ∧ paymentInfoFields ≠ [] ∧
    run false initialState [Event.formTypeChange "userInfo", Event.inputChange "firstName" "a"]
      = some halfFilledState ∧
    (handleFormTypeChange halfFilledState "addressInfo").progress = Progress.percent 50 ∧
    (handleFormTypeChange halfFilledState "addressInfo").progress ≠ Progress.percent 0 := by
  refine ⟨?_, by decide, by decide, by decide, by decide, by decide, by decide⟩
  intro s key
  refine ⟨?_, rfl, rfl⟩
  simp only [handleFormTypeChange, mockApiResponses]
  split_ifs <;> rfl

/-! ## Progress -/

/-- C5: with `userInfo` active (two required fields) and nothing typed, typing
"5" into the optional field `age` makes `handleInputChange` set progress to 50,
while no required field has a value after the write, for which the specified
value `round(100 * filled / total)` is 0. -/
theorem handleInputChange_progress_optional_field :
    (userInfoFields.filter fun field => field.required).length = 2 ∧
    (handleFormTypeChange initialState "userInfo").formData = userInfoFields ∧
    (handleInputChange (handleFormTypeChange initialState "userInfo") "age" "5").map
        (fun next => (next.formValues, next.progress))
      = Except.ok (some [("age", "5")], Progress.percent 50) ∧
    progressAsSpecified userInfoFields [("age", "5")] = Progress.percent 0 := by
  decide

/-! ## Submission store -/

theorem filterNotIndex_of_lt {α : Type} (index : Int) (xs : List α) (start : Nat)
    (h : index < start) : filterNotIndex index start xs = xs := by
  induction xs generalizing start with
  | nil => rfl
  | cons x xs ih =>
    have hne : (start : Int) ≠ index := by omega
    have hlt : index < ((start + 1 : Nat) : Int) := by omega
    simp [filterNotIndex, hne, ih (start + 1) hlt]

theorem filterNotIndex_offset {α : Type} (xs : List α) (start n : Nat) :
    filterNotIndex ((start + n : Nat) : Int) start xs = xs.eraseIdx n := by
  induction xs generalizing start n with
  | nil => rfl
  | cons x xs ih =>
    cases n with
    | zero =>
      have hlt : (start : Int) < ((start + 1 : Nat) : Int) := by omega
      simp [filterNotIndex, filterNotIndex_of_lt _ xs (start + 1) hlt]
    | succ m =>
      have hne : (start : Int) ≠ ((start + (m + 1) : Nat) : Int) := by omega
      have hidx : start + (m + 1) = (start + 1) + m := by omega
      rw [filterNotIndex, if_pos hne, hidx, ih (start + 1) m, List.eraseIdx_cons_succ]

/-- The filter of `handleEdit` and `handleDelete` erases position `i`. -/
theorem filterNotIndex_nat {α : Type} (xs : List α) (i : Nat) :
    filterNotIndex (i : Int) 0 xs = xs.eraseIdx i := by
  have h := filterNotIndex_offset xs 0 i
  simpa using h

/-- Outside the array the filter keeps every record. -/
theorem filterNotIndex_outside {α : Type} (xs : List α) (index : Int)
    (h : index < 0 ∨ (xs.length : Int) ≤ index) : filterNotIndex index 0 xs = xs := by
  rcases h with hneg | hge
  · exact filterNotIndex_of_lt index xs 0 (by simpa using hneg)
  · obtain ⟨n, rfl⟩ := Int.eq_ofNat_of_zero_le (by omega : 0 ≤ index)
    rw [filterNotIndex_nat, List.eraseIdx_of_length_le (by omega)]

theorem readIndex_nat (xs : List (Option Obj)) (i : Nat) (hi : i < xs.length) :
    readIndex xs (i : Int) = xs[i] := by
  simp [readIndex, List.getElem?_eq_getElem hi]

/-- Shape of a list after position `i` is erased. -/
theorem eraseIdx_shape {α : Type} (xs : List α) (i : Nat) (hi : i < xs.length) :
    xs.eraseIdx i = xs.take i ++ xs.drop (i + 1) ∧
    (xs.eraseIdx i).length + 1 = xs.length ∧
    (∀ j, j < i → (xs.eraseIdx i)[j]? = xs[j]?) ∧
    (∀ j, i ≤ j → (xs.eraseIdx i)[j]? = xs[j + 1]?) := by
  refine ⟨List.eraseIdx_eq_take_drop_succ xs i, ?_, ?_, ?_⟩
  · rw [List.length_eraseIdx_of_lt hi]; omega
  · intro j hj; exact List.getElem?_eraseIdx_of_lt xs i j hj
  · intro j hj; exact List.getElem?_eraseIdx_of_ge xs i j hj

/-- Effect of `handleEdit` on a row of the table. -/
theorem handleEdit_row (s : State) (i : Nat) (hi : i < s.submittedData.length) :
    (handleEdit s (i : Int)).formValues = s.submittedData[i] ∧
    (handleEdit s (i : Int)).submittedData = s.submittedData.eraseIdx i :=
  ⟨readIndex_nat s.submittedData i hi, filterNotIndex_nat s.submittedData i⟩

/-- C6: for an index `i` inside the store, `handleEdit` makes the record at
position `i` the `formValues` and removes exactly that record: the store is the
records before `i` followed by the records after `i`, one shorter, with every
other record kept in order. -/
theorem handleEdit_moves_record (s : State) (i : Nat) (hi : i < s.submittedData.length) :
    (handleEdit s (i : Int)).formValues = s.submittedData[i] ∧
    (handleEdit s (i : Int)).submittedData
      = s.submittedData.take i ++ s.submittedData.drop (i + 1) ∧
    (handleEdit s (i : Int)).submittedData.length + 1 = s.submittedData.length ∧
    (∀ j, j < i → (handleEdit s (i : Int)).submittedData[j]? = s.submittedData[j]?) ∧
    (∀ j, i ≤ j → (handleEdit s (i : Int)).submittedData[j]? = s.submittedData[j + 1]?) := by
  obtain ⟨hvalues, hstore⟩ := handleEdit_row s i hi
  rw [hstore]
  exact ⟨hvalues, eraseIdx_shape s.submittedData i hi⟩

theorem handleEdit_moves_record_witness :
    (handleEdit twoRecordsState 0).formValues
        = some [("firstName", "Ada"), ("lastName", "Lovelace")] ∧
    (handleEdit twoRecordsState 0).submittedData
        = [some [("firstName", "Alan"), ("lastName", "Turing")]] :=
  ⟨(handleEdit_moves_record twoRecordsState 0 (by decide)).1,
   (handleEdit_moves_record twoRecordsState 0 (by decide)).2.1⟩

/-- C7: for an index `i` inside the store, `handleDelete` changes only the store,
which becomes the records before `i` followed by the records after `i`, every
other record kept in order; for a negative index or one at or past the length,
`handleDelete` returns the state unchanged. -/
theorem handleDelete_removes_record (s : State) (index : Int) :
    (∀ i : Nat, index = (i : Int) → i < s.submittedData.length →
      handleDelete s index
        = { s with submittedData := s.submittedData.take i ++ s.submittedData.drop (i + 1) } ∧
      (handleDelete s index).submittedData.length + 1 = s.submittedData.length ∧
      (∀ j, j < i → (handleDelete s index).submittedData[j]? = s.submittedData[j]?) ∧
      (∀ j, i ≤ j → (handleDelete s index).submittedData[j]? = s.submittedData[j + 1]?)) ∧
    (index < 0 ∨ (s.submittedData.length : Int) ≤ index → handleDelete s index = s) := by
  constructor
  · intro i hindex hi
    subst hindex
    have hstore : (handleDelete s (i : Int)).submittedData = s.submittedData.eraseIdx i :=
      filterNotIndex_nat s.submittedData i
    have hshape := eraseIdx_shape s.submittedData i hi
    refine ⟨?_, ?_⟩
    · simp only [handleDelete, filterNotIndex_nat, hshape.1]
    · rw [hstore]; exact hshape.2
  · intro hout
    simp only [handleDelete, filterNotIndex_outside s.submittedData index hout]

theorem handleDelete_removes_record_witness :
    (handleDelete twoRecordsState 0).submittedData
        = [some [("firstName", "Alan"), ("lastName", "Turing")]] ∧
    handleDelete twoRecordsState 2 = twoRecordsState ∧
    handleDelete twoRecordsState (-1) = twoRecordsState := by
  refine ⟨?_, (handleDelete_removes_record twoRecordsState 2).2 (Or.inr (by decide)),
    (handleDelete_removes_record twoRecordsState (-1)).2 (Or.inl (by decide))⟩
  rw [((handleDelete_removes_record twoRecordsState 0).1 0 rfl (by decide)).1]
  rfl

/-! ## Edit followed by submit -/

/-- C10 fails as stated: from `twoRecordsState`, editing row 0 and submitting the
loaded values gives a store of length 2 whose position 0 holds the record that
was at position 1, the submitted record being at position 1. -/
theorem handleEdit_submit_not_in_place :
    (handleEdit twoRecordsState 0).formValues
        = some [("firstName", "Ada"), ("lastName", "Lovelace")] ∧
    validateForm (handleEdit twoRecordsState 0).formData (handleEdit twoRecordsState 0).formValues
        = Except.ok true ∧
    (handleSubmit (handleEdit twoRecordsState 0)).map (fun next => next.submittedData)
        = Except.ok [some [("firstName", "Alan"), ("lastName", "Turing")],
                     some [("firstName", "Ada"), ("lastName", "Lovelace")]] ∧
    (handleSubmit (handleEdit twoRecordsState 0)).map (fun next => next.submittedData[0]?)
        ≠ Except.ok (some (some [("firstName", "Ada"), ("lastName", "Lovelace")])) ∧
    (handleSubmit (handleEdit twoRecordsState 0)).map (fun next => next.submittedData[1]?)
        ≠ Except.ok twoRecordsState.submittedData[1]? := by
  decide

/-- C10 amended: for an index `i` inside the store, `handleEdit` followed by a
successful `handleSubmit` of the loaded values yields a store of the original
length in which the submitted record is last, the records before `i` are at
their original positions and the records after `i` are one position earlier. -/
theorem handleEdit_submit_appends (s : State) (i : Nat) (hi : i < s.submittedData.length)
    (hvalid : validateForm (handleEdit s (i : Int)).formData (handleEdit s (i : Int)).formValues
      = Except.ok true) :
    ∃ next, handleSubmit (handleEdit s (i : Int)) = Except.ok next ∧
      next.submittedData
        = s.submittedData.take i ++ s.submittedData.drop (i + 1) ++ [s.submittedData[i]] ∧
      next.submittedData.length = s.submittedData.length ∧
      next.submittedData[s.submittedData.length - 1]? = some s.submittedData[i] ∧
      (∀ j, j < i → next.submittedData[j]? = s.submittedData[j]?) ∧
      (∀ j, i ≤ j → j + 1 < s.submittedData.length →
        next.submittedData[j]? = s.submittedData[j + 1]?) := by
  obtain ⟨hvalues, herase⟩ := handleEdit_row s i hi
  obtain ⟨hshape, hlen, hbefore, hafter⟩ := eraseIdx_shape s.submittedData i hi
  rw [← herase] at hshape hlen hbefore hafter
  have hstore := hshape
  have hsubmit := handleSubmit_of_valid (handleEdit s (i : Int)) hvalid
  refine ⟨_, hsubmit, ?_, ?_, ?_, ?_, ?_⟩
  · simp only [hvalues, hstore]
  · simp only [List.length_append, List.length_singleton]; exact hlen
  · have hpos : s.submittedData.length - 1 = (handleEdit s (i : Int)).submittedData.length := by
      omega
    simp only [hpos, hvalues]
    simp
  · intro j hj
    have hjlen : j < (handleEdit s (i : Int)).submittedData.length := by omega
    simp only [List.getElem?_append_left hjlen]
    exact hbefore j hj
  · intro j hj hjs
    have hjlen : j < (handleEdit s (i : Int)).submittedData.length := by omega
    simp only [List.getElem?_append_left hjlen]
    exact hafter j hj

theorem handleEdit_submit_appends_witness :
    ∃ next, handleSubmit (handleEdit twoRecordsState 0) = Except.ok next ∧
      next.submittedData = [some [("firstName", "Alan"), ("lastName", "Turing")],
                            some [("firstName", "Ada"), ("lastName", "Lovelace")]] := by
  obtain ⟨next, hnext, hstore, _⟩ :=
    handleEdit_submit_appends twoRecordsState 0 (by decide) (by decide)
  exact ⟨next, hnext, hstore⟩

/-! ## Keys of `formValues` along runs -/

theorem keys_set (o : Obj) (name value key : String) (h : key ∈ (o.set name value).keys) :
    key ∈ o.keys ∨ key = name := by
  induction o with
  | nil =>
    simp [Obj.set, Obj.keys] at h
    exact Or.inr h
  | cons entry rest ih =>
    obtain ⟨k, v⟩ := entry
    by_cases hk : k = name
    · simp only [Obj.set, hk, if_true, Obj.keys, List.map_cons, List.mem_cons] at h ⊢
      rcases h with h | h
      · exact Or.inr h
      · exact Or.inl (Or.inr h)
    · simp only [Obj.set, hk, if_false, Obj.keys, List.map_cons, List.mem_cons] at h ⊢
      rcases h with h | h
      · exact Or.inl (Or.inl h)
      · rcases ih h with h1 | h1
        · exact Or.inl (Or.inr h1)
        · exact Or.inr h1

theorem mem_of_mem_filterNotIndex {α : Type} (index : Int) (xs : List α) (start : Nat) (x : α)
    (h : x ∈ filterNotIndex index start xs) : x ∈ xs := by
  induction xs generalizing start with
  | nil => simp [filterNotIndex] at h
  | cons y ys ih =>
    by_cases hne : (start : Int) ≠ index
    · rw [filterNotIndex, if_pos hne] at h
      rcases List.mem_cons.mp h with h | h
      · exact h ▸ List.mem_cons_self _ _
      · exact List.mem_cons_of_mem _ (ih _ h)
    · rw [filterNotIndex, if_neg hne] at h
      exact List.mem_cons_of_mem _ (ih _ h)

theorem readIndex_none_or_mem (xs : List (Option Obj)) (index : Int) :
    readIndex xs index = none ∨ readIndex xs index ∈ xs := by
  unfold readIndex
  split_ifs
  · cases hget : xs.get? index.toNat with
    | none => exact Or.inl rfl
    | some r => exact Or.inr (by simpa using List.get?_mem hget)
  · exact Or.inl rfl

theorem keysAmong_set (fields : List Field) (o : Obj) (name value : String)
    (hkeys : keysAmong fields (some o) = true)
    (hname : (fields.any fun field => field.name == name) = true) :
    keysAmong fields (some (o.set name value)) = true := by
  simp only [keysAmong, spread, Option.getD_some, List.all_eq_true] at hkeys ⊢
  intro key hkey
  rcases keys_set o name value key hkey with h | h
  · exact hkeys key h
  · rw [h]; exact hname

/-- One offered event keeps the keys of `formValues` among the active field
names, provided an edit opens a record whose keys are among them. -/
theorem keysInActive_step (s next : State) (e : Event)
    (hinv : keysInActive s = true) (hoffered : offered true s e = true)
    (hedit : ∀ index, e = Event.edit index →
      keysAmong s.formData (readIndex s.submittedData index) = true)
    (hstep : step s e = Except.ok next) : keysInActive next = true := by
  cases e with
  | formTypeChange key =>
    simp only [step, Except.ok.injEq] at hstep
    subst hstep
    rfl
  | inputChange name value =>
    simp only [step, handleInputChange] at hstep
    cases hvalues : s.formValues with
    | none => simp [hvalues] at hstep
    | some o =>
      simp only [hvalues, Except.ok.injEq] at hstep
      subst hstep
      have hkeys : keysAmong s.formData (some o) = true := by
        rw [← hvalues]; exact hinv
      exact keysAmong_set s.formData o name value hkeys hoffered
  | submit =>
    simp only [step, handleSubmit] at hstep
    cases hvalid : validateForm s.formData s.formValues with
    | error err => simp [hvalid] at hstep
    | ok b =>
      cases b with
      | false =>
        simp only [hvalid, Except.ok.injEq] at hstep
        subst hstep
        exact hinv
      | true =>
        simp only [hvalid, Except.ok.injEq] at hstep
        subst hstep
        rfl
  | edit index =>
    simp only [step, Except.ok.injEq] at hstep
    subst hstep
    exact hedit index rfl
  | delete index =>
    simp only [step, Except.ok.injEq] at hstep
    subst hstep
    exact hinv

/-- One offered event keeps the keys of the stored records among the active
field names, provided a form type change happens on an empty store. -/
theorem storeKeysInActive_step (s next : State) (e : Event)
    (hinv : keysInActive s = true) (hstore : storeKeysInActive s = true)
    (hchange : ∀ key, e = Event.formTypeChange key → s.submittedData.isEmpty = true)
    (hstep : step s e = Except.ok next) : storeKeysInActive next = true := by
  cases e with
  | formTypeChange key =>
    simp only [step, Except.ok.injEq] at hstep
    subst hstep
    have hempty : s.submittedData = [] := List.isEmpty_iff.mp (hchange key rfl)
    simp [storeKeysInActive, handleFormTypeChange, hempty]
  | inputChange name value =>
    simp only [step, handleInputChange] at hstep
    cases hvalues : s.formValues with
    | none => simp [hvalues] at hstep
    | some o =>
      simp only [hvalues, Except.ok.injEq] at hstep
      subst hstep
      exact hstore
  | submit =>
    simp only [step, handleSubmit] at hstep
    cases hvalid : validateForm s.formData s.formValues with
    | error err => simp [hvalid] at hstep
    | ok b =>
      cases b with
      | false =>
        simp only [hvalid, Except.ok.injEq] at hstep
        subst hstep
        exact hstore
      | true =>
        simp only [hvalid, Except.ok.injEq] at hstep
        subst hstep
        simp only [storeKeysInActive, List.all_append, Bool.and_eq_true, List.all_cons,
          List.all_nil, Bool.and_true]
        exact ⟨hstore, hinv⟩
  | edit index =>
    simp only [step, Except.ok.injEq] at hstep
    subst hstep
    simp only [storeKeysInActive, handleEdit, List.all_eq_true] at hstore ⊢
    intro record hrecord
    exact hstore record (mem_of_mem_filterNotIndex _ _ _ record hrecord)
  | delete index =>
    simp only [step, Except.ok.injEq] at hstep
    subst hstep
    simp only [storeKeysInActive, handleDelete, List.all_eq_true] at hstore ⊢
    intro record hrecord
    exact hstore record (mem_of_mem_filterNotIndex _ _ _ record hrecord)

/-- With stored records keyed by active field names, every edit opens such a
record. -/
theorem keysAmong_readIndex (s : State) (index : Int) (hstore : storeKeysInActive s = true) :
    keysAmong s.formData (readIndex s.submittedData index) = true := by
  rcases readIndex_none_or_mem s.submittedData index with hnone | hmem
  · rw [hnone]; rfl
  · simp only [storeKeysInActive, List.all_eq_true] at hstore
    exact hstore _ hmem

theorem keysInActive_run_edits (events : List Event) (s final : State)
    (hinv : keysInActive s = true) (hedits : editsLoadActive s events = true)
    (hrun : run true s events = some final) : keysInActive final = true := by
  induction events generalizing s with
  | nil =>
    simp only [run, Option.some.injEq] at hrun
    exact hrun ▸ hinv
  | cons e es ih =>
    simp only [run] at hrun
    split_ifs at hrun with hoffered
    cases hstep : step s e with
    | error thrown => simp [hstep] at hrun
    | ok next =>
      simp only [hstep] at hrun
      simp only [editsLoadActive, hstep, Bool.and_eq_true] at hedits
      refine ih next (keysInActive_step s next e hinv hoffered ?_ hstep) hedits.2 hrun
      intro index he
      subst he
      exact hedits.1

theorem keysInActive_run_changes (events : List Event) (s final : State)
    (hinv : keysInActive s = true) (hstore : storeKeysInActive s = true)
    (hchanges : typeChangesOnEmptyStore s events = true)
    (hrun : run true s events = some final) : keysInActive final = true := by
  induction events generalizing s with
  | nil =>
    simp only [run, Option.some.injEq] at hrun
    exact hrun ▸ hinv
  | cons e es ih =>
    simp only [run] at hrun
    split_ifs at hrun with hoffered
    cases hstep : step s e with
    | error thrown => simp [hstep] at hrun
    | ok next =>
      simp only [hstep] at hrun
      simp only [typeChangesOnEmptyStore, hstep, Bool.and_eq_true] at hchanges
      refine ih next
        (keysInActive_step s next e hinv hoffered
          (fun index _ => keysAmong_readIndex s index hstore) hstep)
        (storeKeysInActive_step s next e hinv hstore ?_ hstep) hchanges.2 hrun
      intro key he
      subst he
      exact hchanges.1

/-- C8 fails as stated: a `userInfo` record is submitted, the form type is
switched to `addressInfo` and row 0 is edited; `formValues` then has the keys
`firstName` and `lastName`, neither of which names a field of the active list. -/
theorem edit_loads_record_of_other_form_type :
    (run true initialState editAcrossTypesRun).map
        (fun s => (s.formType, s.formData, (spread s.formValues).keys))
      = some ("addressInfo", addressInfoFields, ["firstName", "lastName"]) ∧
    (run true initialState editAcrossTypesRun).map keysInActive = some false := by
  decide

/-- C8 amended: in every state reached from the initial state by offered events
(any form type change, input changes on fields of the active list, submits,
deletes, and edits of rows of the table), every key of `formValues` names a field
of the active field list, provided every edit opens a record whose keys all name
fields of the list active at that moment; that is so for every edit when form
type changes only happen while the store is empty. -/
theorem formValues_keys_along_runs (events : List Event) (s : State)
    (hrun : run true initialState events = some s)
    (hedits : editsLoadActive initialState events = true ∨
      typeChangesOnEmptyStore initialState events = true) :
    keysInActive s = true := by
  rcases hedits with hedits | hchanges
  · exact keysInActive_run_edits events initialState s rfl hedits hrun
  · exact keysInActive_run_changes events initialState s rfl rfl hchanges hrun

theorem formValues_keys_along_runs_witness :
    run true initialState editSameTypeRun ≠ none ∧
    editsLoadActive initialState editSameTypeRun = true ∧
    (run true initialState editSameTypeRun).map
        (fun s => (spread s.formValues).keys) = some ["firstName", "lastName"] ∧
    (run true initialState editSameTypeRun).map keysInActive = some true := by
  refine ⟨by decide, by decide, by decide, ?_⟩
  cases hrun : run true initialState editSameTypeRun with
  | none => exact absurd hrun (by decide)
  | some s =>
    simp [formValues_keys_along_runs editSameTypeRun s hrun (Or.inl (by decide))]

/-! ## Range of `progress` -/

/-- C9: after `userInfo` is selected and both required fields are typed, typing
into `firstName` once more makes `handleInputChange` set progress to 150, which
is outside the range from 0 to 100; every event of the run is offered and the
only form type selected is a registered one. -/
theorem progress_exceeds_hundred :
    mockApiResponses "userInfo" = some userInfoFields ∧
    (run false initialState retypeRun).map (fun s => s.progress)
      = some (Progress.percent 150) ∧
    (run false initialState retypeRun).map (fun s => s.progress.inRange) = some false := by
  decide

end DynamicForm
